import Mathlib

/-!
Shallow embedding of the CogniHub Retrieval & Ranking Engine
(`cognihub/services/rerank.py`, `cognihub/services/rag_routing.py`,
`cognihub/services/retrieval.py`) together with theorems checking the
natural-language specification against it.

Conventions:
* Python `str` is Lean `String`; scanning works over `List Char` (`String.data`).
* Python JSON values (`json.loads` results) are the inductive `Json` below.
  The model covers the JSON fragment the engine exchanges with the LLM:
  objects, arrays, strings with the common escapes, integer numbers,
  `true`/`false`/`null`.  Floating-point literals are outside the model.
* Python dicts carrying a RouteDecision are ordered association lists
  (`RDict`); `dict.get` returning `None` for a missing key is `pyGet`,
  which conflates a missing key with an explicit JSON `null`, exactly as
  the Python code does.
* External collaborators that are not part of the repository sources
  (the `kiwix` HTTP client, the `ragstore` embedding/persistence layer,
  `hashlib`) are oracle parameters bundled in environment structures.
-/

/-- JSON values, modelling the results of Python `json.loads` on the JSON
fragment used by the engine (integer numerals only). -/
inductive Json where
  | null : Json
  | bool : Bool → Json
  | num : Int → Json
  | str : String → Json
  | arr : List Json → Json
  | obj : List (String × Json) → Json

/-- Whitespace accepted by the JSON grammar. -/
def isJsonWs (c : Char) : Bool :=
  c = ' ' ∨ c = '\t' ∨ c = '\n' ∨ c = '\r'

/-- Drop leading JSON whitespace. -/
def skipWs : List Char → List Char
  | [] => []
  | c :: cs => if isJsonWs c then skipWs cs else c :: cs

/-- Parse the body of a JSON string literal (after the opening quote),
returning the decoded characters and the remainder after the closing
quote.  Handles the escape sequences `\" \\ \/ \b \f \n \r \t` and
`\uXXXX`. -/
def parseStrBody : List Char → Option (List Char × List Char)
  | [] => none
  | '"' :: rest => some ([], rest)
  | '\\' :: e :: rest =>
      let dec : Option Char :=
        if e = '"' then some '"'
        else if e = '\\' then some '\\'
        else if e = '/' then some '/'
        else if e = 'b' then some (Char.ofNat 8)
        else if e = 'f' then some (Char.ofNat 12)
        else if e = 'n' then some '\n'
        else if e = 'r' then some '\r'
        else if e = 't' then some '\t'
        else none
      match dec with
      | some c =>
          match parseStrBody rest with
          | some (cs, rem) => some (c :: cs, rem)
          | none => none
      | none =>
          if e = 'u' then
            match rest with
            | h1 :: h2 :: h3 :: h4 :: rest' =>
                let isHex : Char → Bool := fun c =>
                  c.isDigit || ('a' ≤ c ∧ c ≤ 'f') || ('A' ≤ c ∧ c ≤ 'F')
                match isHex h1, isHex h2, isHex h3, isHex h4 with
                | true, true, true, true =>
                    let hv : Char → Nat := fun c =>
                      if c.isDigit then c.toNat - '0'.toNat
                      else if 'a' ≤ c ∧ c ≤ 'f' then c.toNat - 'a'.toNat + 10
                      else c.toNat - 'A'.toNat + 10
                    let n := ((hv h1 * 16 + hv h2) * 16 + hv h3) * 16 + hv h4
                    match parseStrBody rest' with
                    | some (cs, rem) => some (Char.ofNat n :: cs, rem)
                    | none => none
                | _, _, _, _ => none
            | _ => none
          else none
  | '\\' :: [] => none
  | c :: rest =>
      match parseStrBody rest with
      | some (cs, rem) => some (c :: cs, rem)
      | none => none

/-- Parse a run of decimal digits (at least one). -/
def parseDigits : List Char → Option (Nat × List Char)
  | [] => none
  | c :: cs =>
      if c.isDigit then
        let rec go (acc : Nat) : List Char → Nat × List Char
          | [] => (acc, [])
          | d :: ds => if d.isDigit then go (acc * 10 + (d.toNat - '0'.toNat)) ds else (acc, d :: ds)
        some (go (c.toNat - '0'.toNat) cs)
      else none

mutual

/-- Parse one JSON value (fuel-indexed recursive descent). -/
def parseVal : Nat → List Char → Option (Json × List Char)
  | 0, _ => none
  | fuel + 1, cs =>
      match skipWs cs with
      | [] => none
      | '{' :: rest => parseObjFields fuel rest true
      | '[' :: rest => parseArrElems fuel rest true
      | '"' :: rest =>
          match parseStrBody rest with
          | some (chars, rem) => some (Json.str (String.mk chars), rem)
          | none => none
      | 't' :: 'r' :: 'u' :: 'e' :: rest => some (Json.bool true, rest)
      | 'f' :: 'a' :: 'l' :: 's' :: 'e' :: rest => some (Json.bool false, rest)
      | 'n' :: 'u' :: 'l' :: 'l' :: rest => some (Json.null, rest)
      | '-' :: rest =>
          match parseDigits rest with
          | some (n, rem) => some (Json.num (-(n : Int)), rem)
          | none => none
      | c :: rest =>
          if c.isDigit then
            match parseDigits (c :: rest) with
            | some (n, rem) => some (Json.num (n : Int), rem)
            | none => none
          else none

/-- Parse the fields of an object after the opening brace.  `first` is
true until one field has been consumed. -/
def parseObjFields : Nat → List Char → Bool → Option (Json × List Char)
  | 0, _, _ => none
  | fuel + 1, cs, first =>
      match skipWs cs with
      | [] => none
      | '}' :: rest => if first then some (Json.obj [], rest) else none
      | cs' =>
          match parseOneField fuel cs' with
          | none => none
          | some (k, v, rem) =>
              match skipWs rem with
              | ',' :: rem' =>
                  match parseObjFields fuel rem' false with
                  | some (Json.obj fields, rem'') => some (Json.obj ((k, v) :: fields), rem'')
                  | _ => none
              | '}' :: rem' => some (Json.obj [(k, v)], rem')
              | _ => none

/-- Parse a single `"key": value` pair. -/
def parseOneField : Nat → List Char → Option (String × Json × List Char)
  | 0, _ => none
  | fuel + 1, cs =>
      match skipWs cs with
      | '"' :: rest =>
          match parseStrBody rest with
          | some (kchars, rem) =>
              match skipWs rem with
              | ':' :: rem' =>
                  match parseVal fuel rem' with
                  | some (v, rem'') => some (String.mk kchars, v, rem'')
                  | none => none
              | _ => none
          | none => none
      | _ => none

/-- Parse the elements of an array after the opening bracket. -/
def parseArrElems : Nat → List Char → Bool → Option (Json × List Char)
  | 0, _, _ => none
  | fuel + 1, cs, first =>
      match skipWs cs with
      | [] => none
      | ']' :: rest => if first then some (Json.arr [], rest) else none
      | cs' =>
          match parseVal fuel cs' with
          | none => none
          | some (v, rem) =>
              match skipWs rem with
              | ',' :: rem' =>
                  match parseArrElems fuel rem' false with
                  | some (Json.arr elems, rem'') => some (Json.arr (v :: elems), rem'')
                  | _ => none
              | ']' :: rem' => some (Json.arr [v], rem')
              | _ => none

end

/-- Model of Python `json.loads`: parse one JSON value and require that
only whitespace follows (Python rejects trailing data). -/
def jsonLoads (s : String) : Option Json :=
  match parseVal (2 * s.length + 4) s.data with
  | some (v, rem) => if skipWs rem = [] then some v else none
  | none => none

example : jsonLoads "[3, 1]" = some (Json.arr [Json.num 3, Json.num 1]) := rfl

/-! ## ResponseJSONExtractor: `_json_obj_from_text` (rag_routing.py) and
`_extract_json_array` (rerank.py) -/

/-- Whitespace removed by Python `str.strip()`. -/
def isPyWs (c : Char) : Bool :=
  c = ' ' || c = '\t' || c = '\n' || c = '\r' || c = '\x0b' || c = '\x0c'

/-- Model of Python `str.strip()` on the character list. -/
def listStrip (cs : List Char) : List Char :=
  ((cs.dropWhile isPyWs).reverse.dropWhile isPyWs).reverse

/-- Model of Python `str.strip()` on strings. -/
def pyStrip (s : String) : String :=
  String.mk (listStrip s.data)

/-- Index of the first occurrence of `c` (Python `str.find`, `none` for -1). -/
def listFindIdx (c : Char) : List Char → Option Nat
  | [] => none
  | x :: xs => if x = c then some 0 else (listFindIdx c xs).map (· + 1)

/-- Index of the last occurrence of `c` (Python `str.rfind`, `none` for -1). -/
def listRfindIdx (c : Char) : List Char → Option Nat
  | [] => none
  | x :: xs =>
      match listRfindIdx c xs with
      | some i => some (i + 1)
      | none => if x = c then some 0 else none

/-- The inner scan of `_json_obj_from_text`, started at the first `{` of the
text: walk the characters keeping captured span (reversed), depth, in-string
and escape-pending flags; when depth returns to zero, parse the captured span
(`json.loads`), returning `none` on parse failure without scanning further.
The Python scan bound `min(len(s), i + max_size)` equals `len(s)` because the
caller already rejected inputs longer than `max_size`, so the scan runs to the
end of the text. -/
def braceScan : List Char → List Char → Int → Bool → Bool → Option Json
  | [], _, _, _, _ => none
  | c :: rest, acc, depth, inString, escapeNext =>
      let acc' := c :: acc
      if escapeNext then braceScan rest acc' depth inString false
      else if c = '\\' then braceScan rest acc' depth inString true
      else if c = '"' then braceScan rest acc' depth (!inString) false
      else if inString then braceScan rest acc' depth inString false
      else if c = '{' then braceScan rest acc' (depth + 1) inString false
      else if c = '}' then
        if depth - 1 = 0 then jsonLoads (String.mk acc'.reverse)
        else braceScan rest acc' (depth - 1) inString false
      else braceScan rest acc' depth inString false

/-- Model of `_json_obj_from_text(text, max_size=...)`: reject empty or
oversized input, find the first `{`, scan for the balanced span (string- and
escape-aware), and parse it; abandon extraction if that span fails to parse. -/
def jsonObjFromText (text : String) (maxSize : Nat) : Option Json :=
  let cs := text.data
  if cs.isEmpty ∨ cs.length > maxSize then none
  else
    match listFindIdx '{' cs with
    | none => none
    | some i => braceScan (cs.drop i) [] 0 false false

/-- Model of `_extract_json_array(text)`: strip the text, take the substring
from the first `[` through the last `]`, parse it with `json.loads`, and
return it only when it is a JSON list. -/
def extractJsonArray (text : String) : Option (List Json) :=
  let cs := listStrip text.data
  if cs.isEmpty then none
  else
    match listFindIdx '[' cs, listRfindIdx ']' cs with
    | some start, some stop =>
        if stop ≤ start then none
        else
          match jsonLoads (String.mk ((cs.drop start).take (stop + 1 - start))) with
          | some (Json.arr xs) => some xs
          | _ => none
    | _, _ => none

example :
    jsonObjFromText "noise \x7b\"a\": 1, \"b\": \"x\x7dy\"\x7d trailing" 1000 =
      some (Json.obj [("a", Json.num 1), ("b", Json.str "x\x7dy")]) := rfl

example : jsonObjFromText "\x7b\"a\": \x7d" 1000 = none := rfl

example : extractJsonArray "noise [3, 1] trailing" = some [Json.num 3, Json.num 1] := rfl

example : extractJsonArray "[1] noise [2]" = none := rfl

/-! ## Reranker: `rerank_results` (rerank.py)

The LLM call is modelled by an `Option String`: `none` for any transport
failure (exception / non-2xx / missing response fields inside the `try`
block), `some content` for the extracted `message.content`.  The results
list is polymorphic in the result type: `rerank_results` only moves its
elements around. -/

/-- Python `int(x)` applied to a JSON-decoded value: numbers pass through,
booleans become 0/1, strings are parsed as optionally signed decimal
integers after stripping whitespace, anything else raises (→ `none`). -/
def pyToInt : Json → Option Int
  | Json.num n => some n
  | Json.bool b => some (if b then 1 else 0)
  | Json.str s =>
      let cs := listStrip s.data
      let digits : List Char → Option Nat := fun ds =>
        match parseDigits ds with
        | some (n, []) => some n
        | _ => none
      match cs with
      | '-' :: ds => (digits ds).map (fun n => -(n : Int))
      | '+' :: ds => (digits ds).map (fun n => (n : Int))
      | ds => (digits ds).map (fun n => (n : Int))
  | _ => none

/-- The reranker's `by_id` lookup: candidates are keyed 1-based, so id `i`
resolves to the candidate at index `i - 1` when `1 ≤ i ≤ len`. -/
def byId (cands : List α) (i : Int) : Option α :=
  if i ≤ 0 then none else cands.get? (i.toNat - 1)

/-- The reranker's reconciliation loop: walk the extracted array, convert
each element with `int(...)` (skips on failure), skip ids already seen,
skip ids with no candidate, and append the referenced candidate.  Returns
the picked list and the final `seen` set (as a list). -/
def pickLoop (cands : List α) : List Json → List Int → List α × List Int
  | [], seen => ([], seen)
  | x :: rest, seen =>
      match pyToInt x with
      | none => pickLoop cands rest seen
      | some i =>
          if i ∈ seen then pickLoop cands rest seen
          else
            match byId cands i with
            | none => pickLoop cands rest seen
            | some r =>
                let pr := pickLoop cands rest (i :: seen)
                (r :: pr.1, pr.2)

/-- The reranker's final loop over `enumerate(candidates, start=1)`: keep
each candidate whose 1-based position is not in `seen`. -/
def unmentionedAux (seen : List Int) : Nat → List α → List α
  | _, [] => []
  | i, c :: cs =>
      if (i : Int) ∈ seen then unmentionedAux seen (i + 1) cs
      else c :: unmentionedAux seen (i + 1) cs

/-- `rerank_results` after a successful extraction of the id array
(`order`): clamp `keep_n`, take the candidates, run the reconciliation
loop, fall back to the original list when nothing was picked, otherwise
`picked + unmentioned + results[keep_n:]`. -/
def rerank_reconcile (results : List α) (keepN : Int) (order : List Json) : List α :=
  if results.isEmpty then []
  else
    let kn := (max 1 (min keepN (results.length : Int))).toNat
    let candidates := results.take kn
    if order.isEmpty then results
    else
      let pr := pickLoop candidates order []
      if pr.1.isEmpty then results
      else pr.1 ++ unmentionedAux pr.2 1 candidates ++ results.drop kn

/-- Model of `rerank_results`: empty input short-circuits to `[]`; a
transport failure or a failed array extraction returns the input
unchanged; otherwise reconcile with the extracted order. -/
def rerank_results (results : List α) (keepN : Int) (llm : Option String) : List α :=
  if results.isEmpty then []
  else
    match llm with
    | none => results
    | some content =>
        match extractJsonArray content with
        | none => results
        | some order => rerank_reconcile results keepN order

/-- The reconciliation policy in the spec's words: walk the id array in
order, appending the candidate at each referenced 1-based id exactly once
(later repeats are skipped via the `seen` accumulator, out-of-range ids
resolve to no candidate and are skipped). -/
def claimWalk (cands : List α) : List Int → List Int → List α
  | [], _ => []
  | i :: rest, seen =>
      if i ∈ seen then claimWalk cands rest seen
      else
        match byId cands i with
        | none => claimWalk cands rest seen
        | some r => r :: claimWalk cands rest (i :: seen)

/-- The `seen` set produced by the walk. -/
def walkSeen (cands : List α) : List Int → List Int → List Int
  | [], seen => seen
  | i :: rest, seen =>
      if i ∈ seen then walkSeen cands rest seen
      else
        match byId cands i with
        | none => walkSeen cands rest seen
        | some _ => walkSeen cands rest (i :: seen)

theorem pickLoop_map_num (cands : List α) (order : List Int) :
    ∀ seen, pickLoop cands (order.map Json.num) seen =
      (claimWalk cands order seen, walkSeen cands order seen) := by
  induction order with
  | nil => intro seen; rfl
  | cons i rest ih =>
      intro seen
      by_cases h : i ∈ seen
      · simp [pickLoop, claimWalk, walkSeen, pyToInt, h, ih]
      · cases hb : byId cands i with
        | none => simp [pickLoop, claimWalk, walkSeen, pyToInt, h, hb, ih]
        | some r => simp [pickLoop, claimWalk, walkSeen, pyToInt, h, hb, ih]

theorem walkSeen_mem (cands : List α) (order : List Int) :
    ∀ (seen : List Int) (i : Int),
      i ∈ walkSeen cands order seen ↔ i ∈ seen ∨ (i ∈ order ∧ byId cands i ≠ none) := by
  induction order with
  | nil => intro seen i; simp [walkSeen]
  | cons j rest ih =>
      intro seen i
      by_cases hj : j ∈ seen
      · rw [show walkSeen cands (j :: rest) seen = walkSeen cands rest seen from by
          simp [walkSeen, hj]]
        rw [ih]
        simp only [List.mem_cons]
        constructor
        · rintro (h | ⟨h1, h2⟩)
          · exact Or.inl h
          · exact Or.inr ⟨Or.inr h1, h2⟩
        · rintro (h | ⟨rfl | h1, h2⟩)
          · exact Or.inl h
          · exact Or.inl hj
          · exact Or.inr ⟨h1, h2⟩
      · cases hb : byId cands j with
        | none =>
            rw [show walkSeen cands (j :: rest) seen = walkSeen cands rest seen from by
              simp [walkSeen, hj, hb]]
            rw [ih]
            simp only [List.mem_cons]
            constructor
            · rintro (h | ⟨h1, h2⟩)
              · exact Or.inl h
              · exact Or.inr ⟨Or.inr h1, h2⟩
            · rintro (h | ⟨rfl | h1, h2⟩)
              · exact Or.inl h
              · exact absurd hb h2
              · exact Or.inr ⟨h1, h2⟩
        | some r =>
            rw [show walkSeen cands (j :: rest) seen = walkSeen cands rest (j :: seen) from by
              simp [walkSeen, hj, hb]]
            rw [ih]
            simp only [List.mem_cons]
            constructor
            · rintro ((rfl | h) | ⟨h1, h2⟩)
              · exact Or.inr ⟨Or.inl rfl, by simp [hb]⟩
              · exact Or.inl h
              · exact Or.inr ⟨Or.inr h1, h2⟩
            · rintro (h | ⟨rfl | h1, h2⟩)
              · exact Or.inl (Or.inr h)
              · exact Or.inl (Or.inl rfl)
              · exact Or.inr ⟨h1, h2⟩

theorem claimWalk_nil (cands : List α) (order : List Int) :
    ∀ seen, claimWalk cands order seen = [] →
      ∀ i ∈ order, i ∈ seen ∨ byId cands i = none := by
  induction order with
  | nil => intro seen _ i hi; cases hi
  | cons j rest ih =>
      intro seen h i hi
      by_cases hj : j ∈ seen
      · have h' : claimWalk cands rest seen = [] := by simpa [claimWalk, hj] using h
        rcases List.mem_cons.mp hi with rfl | hi'
        · exact Or.inl hj
        · exact ih seen h' i hi'
      · cases hb : byId cands j with
        | none =>
            have h' : claimWalk cands rest seen = [] := by simpa [claimWalk, hj, hb] using h
            rcases List.mem_cons.mp hi with rfl | hi'
            · exact Or.inr hb
            · exact ih seen h' i hi'
        | some r => simp [claimWalk, hj, hb] at h

theorem byId_pos (cands : List α) (j : Nat) (h1 : 1 ≤ j) (h2 : j ≤ cands.length) :
    byId cands (j : Int) ≠ none := by
  unfold byId
  rw [if_neg (by omega : ¬ (j : Int) ≤ 0)]
  simp only [Int.toNat_natCast, Ne, List.get?_eq_none]
  omega

theorem unmentionedAux_congr (s1 s2 : List Int) :
    ∀ (cs : List α) (k : Nat),
      (∀ j : Nat, k ≤ j → j < k + cs.length → ((j : Int) ∈ s1 ↔ (j : Int) ∈ s2)) →
      unmentionedAux s1 k cs = unmentionedAux s2 k cs := by
  intro cs
  induction cs with
  | nil => intro k _; rfl
  | cons c cs ih =>
      intro k h
      have hk := h k le_rfl (by simp only [List.length_cons]; omega)
      have hrest : ∀ j : Nat, k + 1 ≤ j → j < (k + 1) + cs.length → ((j : Int) ∈ s1 ↔ (j : Int) ∈ s2) :=
        fun j hj1 hj2 => h j (by omega) (by simp only [List.length_cons]; omega)
      simp only [unmentionedAux]
      by_cases hm : (k : Int) ∈ s1
      · rw [if_pos hm, if_pos (hk.mp hm), ih (k + 1) hrest]
      · rw [if_neg hm, if_neg (fun hc => hm (hk.mpr hc)), ih (k + 1) hrest]

theorem unmentionedAux_eq_self (seen : List Int) :
    ∀ (cs : List α) (k : Nat),
      (∀ j : Nat, k ≤ j → j < k + cs.length → (j : Int) ∉ seen) →
      unmentionedAux seen k cs = cs := by
  intro cs
  induction cs with
  | nil => intro k _; rfl
  | cons c cs ih =>
      intro k h
      have hk := h k le_rfl (by simp only [List.length_cons]; omega)
      simp only [unmentionedAux, if_neg hk]
      rw [ih (k + 1) (fun j hj1 hj2 => h j (by omega) (by simp only [List.length_cons]; omega))]

theorem pickLoop_fst_nil (cands : List α) :
    ∀ order : List Json,
      (∀ x ∈ order, ∀ i, pyToInt x = some i → byId cands i = none) →
      ∀ seen, (pickLoop cands order seen).1 = [] := by
  intro order
  induction order with
  | nil => intro _ seen; rfl
  | cons x rest ih =>
      intro h seen
      have hrest := fun y hy => h y (List.mem_cons_of_mem x hy)
      cases hx : pyToInt x with
      | none => simpa [pickLoop, hx] using ih hrest seen
      | some i =>
          by_cases hs : i ∈ seen
          · simpa [pickLoop, hx, hs] using ih hrest seen
          · have hb : byId cands i = none := h x (List.mem_cons_self x rest) i hx
            simpa [pickLoop, hx, hs, hb] using ih hrest seen

/-- C1: for every non-empty result list, every `keep_n`, and every id array
extracted from the LLM response, `rerank_results` outputs the walked ranked
ids (each referenced candidate appended exactly once, later repeats and
out-of-range ids ignored), then the candidates never mentioned in the array
in their original relative order, then the results beyond `keep_n`
unchanged. -/
theorem rerank_reconcile_policy {α : Type} (results : List α) (keepN : Int) (order : List Int)
    (h : results ≠ []) :
    rerank_reconcile results keepN (order.map Json.num) =
      claimWalk (results.take (max 1 (min keepN (results.length : Int))).toNat) order []
        ++ unmentionedAux order 1 (results.take (max 1 (min keepN (results.length : Int))).toNat)
        ++ results.drop (max 1 (min keepN (results.length : Int))).toNat := by
  have hne : results.isEmpty = false := by
    rcases results with _ | ⟨a, rs⟩
    · exact absurd rfl h
    · rfl
  set kn := (max 1 (min keepN (results.length : Int))).toNat with hkn
  set cands := results.take kn with hcands
  rcases ho : order with _ | ⟨i0, orest⟩
  · -- empty order array: the reranker returns the input; the claim's
    -- right-hand side degenerates to take ++ drop
    simp only [rerank_reconcile, hne, Bool.false_eq_true, if_false, List.map_nil,
      List.isEmpty_nil, if_true, claimWalk, List.nil_append]
    rw [unmentionedAux_eq_self _ _ _ (fun j _ _ hmem => by cases hmem)]
    exact (List.take_append_drop kn results).symm
  · rw [← ho]
    have hone : (order.map Json.num).isEmpty = false := by
      rcases order with _ | ⟨x, xs⟩
      · cases ho
      · rfl
    simp only [rerank_reconcile, hne, Bool.false_eq_true, if_false, hone,
      pickLoop_map_num]
    by_cases hcw : claimWalk cands order [] = []
    · have hempty : (claimWalk cands order [], walkSeen cands order []).1.isEmpty = true := by
        simp [hcw]
      rw [if_pos hempty, hcw, List.nil_append]
      have hinv : ∀ i ∈ order, byId cands i = none := by
        intro i hi
        rcases claimWalk_nil cands order [] hcw i hi with hmem | hnone
        · cases hmem
        · exact hnone
      rw [unmentionedAux_eq_self _ _ _ (fun j hj1 hj2 hmem =>
        byId_pos cands j hj1 (by omega) (hinv _ hmem))]
      exact (List.take_append_drop kn results).symm
    · have hnempty : (claimWalk cands order [], walkSeen cands order []).1.isEmpty = false := by
        rcases hcl : claimWalk cands order [] with _ | ⟨p, ps⟩
        · exact absurd hcl hcw
        · simp [hcl]
      rw [if_neg (by simp [hnempty])]
      have hcong : unmentionedAux (walkSeen cands order []) 1 cands =
          unmentionedAux order 1 cands := by
        apply unmentionedAux_congr
        intro j hj1 hj2
        rw [walkSeen_mem]
        have hbid : byId cands (j : Int) ≠ none := byId_pos cands j hj1 (by omega)
        constructor
        · rintro (hmem | ⟨hmem, _⟩)
          · cases hmem
          · exact hmem
        · intro hmem
          exact Or.inr ⟨hmem, hbid⟩
      rw [hcong]

/-- C1 instance (the spec's worked example): candidates `[1,2,3]` with LLM
order `[3,1]` produce `[3,1,2]`. -/
theorem rerank_reconcile_policy_witness :
    ([(10 : Nat), 20, 30] ≠ []) ∧
      rerank_reconcile [(10 : Nat), 20, 30] 3 [Json.num 3, Json.num 1] = [30, 10, 20] :=
  ⟨by decide,
    (rerank_reconcile_policy [(10 : Nat), 20, 30] 3 [3, 1] (by decide)).trans (by decide)⟩

/-- C3: on a transport/parse failure of the rerank LLM call, or when the
extracted array yields zero ids that map to a candidate, `rerank_results`
returns the original input list unchanged. -/
theorem rerank_results_fallback {α : Type} (results : List α) (keepN : Int) (llm : Option String)
    (h : llm = none ∨ ∃ c, llm = some c ∧
      (extractJsonArray c = none ∨ ∃ order, extractJsonArray c = some order ∧
        ∀ x ∈ order, ∀ i, pyToInt x = some i →
          byId (results.take (max 1 (min keepN (results.length : Int))).toNat) i = none)) :
    rerank_results results keepN llm = results := by
  have hsplit : results.isEmpty = true → rerank_results results keepN llm = results := by
    intro he
    rcases results with _ | ⟨a, rs⟩
    · rfl
    · cases he
  rcases hres : results.isEmpty with _ | _
  case true => exact hsplit hres
  case false =>
    rcases h with rfl | ⟨c, rfl, hc⟩
    · simp [rerank_results, hres]
    · rcases hc with hnone | ⟨order, hsome, hinvalid⟩
      · simp [rerank_results, hres, hnone]
      · simp only [rerank_results, hres, Bool.false_eq_true, if_false, hsome]
        rcases horder : order with _ | ⟨x, xs⟩
        · simp [rerank_reconcile, hres]
        · rw [← horder]
          have hone : order.isEmpty = false := by rw [horder]; rfl
          have hpick := pickLoop_fst_nil
            (results.take (max 1 (min keepN (results.length : Int))).toNat) order hinvalid []
          simp only [rerank_reconcile, hres, Bool.false_eq_true, if_false, hone, hpick]
          simp

theorem rerank_results_fallback_witness :
    ((none : Option String) = none) ∧ rerank_results [(1 : Nat), 2, 3] 2 none = [1, 2, 3] :=
  ⟨rfl, rerank_results_fallback [(1 : Nat), 2, 3] 2 none (Or.inl rfl)⟩

/-! ## RouteAdvisor: `route_rag` (rag_routing.py)

A RouteDecision dict is an ordered association list; `dict(defaults)` is a
value copy, `out[key] = v` is `dictSet` (update in place, append if new),
`obj.get(key)` is `pyGet` (`null` when the key is missing, exactly like
Python's `None`).  The LLM call is again an `Option String` holding the
stripped `message.content`; `config.config.max_json_parse_size` is the
`maxSize` parameter (the `config` module is an external collaborator). -/

/-- Ordered dictionary with string keys and JSON-decoded values. -/
abbrev RDict := List (String × Json)

/-- First-match association lookup (Python `dict[k]` / `dict.get(k)` with
`none` for a missing key). -/
def dictGet (d : RDict) (k : String) : Option Json :=
  match d with
  | [] => none
  | (k', v) :: rest => if k' = k then some v else dictGet rest k

/-- Python `obj.get(key)`: a missing key and an explicit JSON `null` are
both Python `None`. -/
def pyGet (d : RDict) (k : String) : Json :=
  (dictGet d k).getD Json.null

/-- Python `out[key] = v` on an insertion-ordered dict: overwrite in place,
append at the end when the key is new. -/
def dictSet (d : RDict) (k : String) (v : Json) : RDict :=
  match d with
  | [] => [(k, v)]
  | (k', v') :: rest => if k' = k then (k', v) :: rest else (k', v') :: dictSet rest k v

/-- The boolean RouteDecision fields. -/
def boolKeys : List String := ["use_docs", "use_web", "use_kiwix"]

/-- The nullable-string RouteDecision fields. -/
def strKeys : List String := ["doc_group", "doc_source", "doc_query", "web_query", "kiwix_query"]

/-- One iteration of `for key in ("use_docs", "use_web", "use_kiwix")`:
override only when the JSON value is an actual boolean. -/
def boolStep (obj : RDict) (o : RDict) (k : String) : RDict :=
  match pyGet obj k with
  | Json.bool b => dictSet o k (Json.bool b)
  | _ => o

/-- One iteration of the string-field loop: a string value is stripped and
stored (empty → `null`); a Python `None` (missing key or JSON `null`)
stores `null`; any other type leaves the entry as is. -/
def strStep (obj : RDict) (o : RDict) (k : String) : RDict :=
  match pyGet obj k with
  | Json.str v =>
      let cs := listStrip v.data
      dictSet o k (if cs.isEmpty then Json.null else Json.str (String.mk cs))
  | Json.null => dictSet o k Json.null
  | _ => o

/-- The merge of the extracted JSON object over `out = dict(defaults)`. -/
def routeMerge (defaults obj : RDict) : RDict :=
  strKeys.foldl (strStep obj) (boolKeys.foldl (boolStep obj) defaults)

/-- Model of `route_rag`: empty query → copy of defaults; transport failure
(`llm = none`) → copy of defaults; extraction failure or non-dict → copy of
defaults; otherwise the merge over a copy of defaults. -/
def route_rag (query : String) (defaults : RDict) (llm : Option String) (maxSize : Nat) : RDict :=
  if (listStrip query.data).isEmpty then defaults
  else
    match llm with
    | none => defaults
    | some content =>
        match jsonObjFromText (pyStrip content) maxSize with
        | some (Json.obj kvs) => routeMerge defaults kvs
        | _ => defaults

/-- C2: on any failure of the LLM call — transport error / non-2xx
(modelled by `llm = none`) or failure to extract a JSON object from the
response — `route_rag` returns the supplied defaults, field for field. -/
theorem route_rag_failure_defaults (q : String) (d : RDict) (ms : Nat) (llm : Option String)
    (h : llm = none ∨ ∃ c, llm = some c ∧
      ∀ kvs, jsonObjFromText (pyStrip c) ms ≠ some (Json.obj kvs)) :
    route_rag q d llm ms = d := by
  by_cases hq : (listStrip q.data).isEmpty
  · simp [route_rag, hq]
  · rcases h with rfl | ⟨c, rfl, hc⟩
    · simp [route_rag, hq]
    · rcases hobj : jsonObjFromText (pyStrip c) ms with _ | v
      · simp [route_rag, hq, hobj]
      · cases v with
        | obj kvs => exact absurd hobj (hc kvs)
        | null => simp [route_rag, hq, hobj]
        | bool b => simp [route_rag, hq, hobj]
        | num n => simp [route_rag, hq, hobj]
        | str s => simp [route_rag, hq, hobj]
        | arr xs => simp [route_rag, hq, hobj]

/-- The defaults record used for concrete routing scenarios. -/
def routeDefaults0 : RDict :=
  [("use_docs", Json.bool false), ("use_web", Json.bool false), ("use_kiwix", Json.bool false),
   ("doc_group", Json.null), ("doc_source", Json.null), ("doc_query", Json.str "orig"),
   ("web_query", Json.null), ("kiwix_query", Json.null)]

theorem route_rag_failure_defaults_witness :
    ((none : Option String) = none) ∧ route_rag "q" routeDefaults0 none 1000 = routeDefaults0 :=
  ⟨rfl, route_rag_failure_defaults "q" routeDefaults0 1000 none (Or.inl rfl)⟩

theorem dictGet_dictSet_self (d : RDict) (k : String) (v : Json) :
    dictGet (dictSet d k v) k = some v := by
  induction d with
  | nil => simp [dictSet, dictGet]
  | cons kv rest ih =>
      obtain ⟨k', v'⟩ := kv
      by_cases h : k' = k
      · simp [dictSet, dictGet, h]
      · simp [dictSet, dictGet, h, ih]

theorem dictGet_dictSet_ne (d : RDict) (k k' : String) (v : Json) (h : k ≠ k') :
    dictGet (dictSet d k v) k' = dictGet d k' := by
  induction d with
  | nil => simp [dictSet, dictGet, h]
  | cons kv rest ih =>
      obtain ⟨k0, v0⟩ := kv
      by_cases h0 : k0 = k
      · subst h0
        simp [dictSet, dictGet, h, ih]
      · simp only [dictSet, if_neg h0, dictGet]
        by_cases h1 : k0 = k'
        · simp [h1]
        · simp [h1, ih]

theorem boolStep_get_ne (obj o : RDict) (k k' : String) (h : k ≠ k') :
    dictGet (boolStep obj o k) k' = dictGet o k' := by
  cases hm : pyGet obj k <;> simp [boolStep, hm, dictGet_dictSet_ne _ _ _ _ h]

theorem boolStep_get_self (obj o : RDict) (k : String) :
    dictGet (boolStep obj o k) k =
      match pyGet obj k with
      | Json.bool b => some (Json.bool b)
      | _ => dictGet o k := by
  cases hm : pyGet obj k <;> simp [boolStep, hm, dictGet_dictSet_self]

theorem strStep_get_ne (obj o : RDict) (k k' : String) (h : k ≠ k') :
    dictGet (strStep obj o k) k' = dictGet o k' := by
  cases hm : pyGet obj k <;> simp [strStep, hm, dictGet_dictSet_ne _ _ _ _ h]

theorem strStep_get_self (obj o : RDict) (k : String) :
    dictGet (strStep obj o k) k =
      match pyGet obj k with
      | Json.str v =>
          some (if (listStrip v.data).isEmpty then Json.null
                else Json.str (String.mk (listStrip v.data)))
      | Json.null => some Json.null
      | _ => dictGet o k := by
  cases hm : pyGet obj k <;> simp [strStep, hm, dictGet_dictSet_self]

/-- C6 counterexample: the JSON object `\x7b"use_docs": true\x7d` mentions no
string field, yet `route_rag` resets the recognized string field
`doc_query` from its default `"orig"` to `null` — a recognized field absent
from the JSON is not kept at its default, contradicting "merges only
recognized, type-correct fields over the defaults". -/
theorem route_rag_clobbers_absent_string_field :
    dictGet routeDefaults0 "doc_query" = some (Json.str "orig") ∧
    dictGet (route_rag "q" routeDefaults0 (some "\x7b\"use_docs\": true\x7d") 1000)
        "doc_query" = some Json.null ∧
    dictGet (route_rag "q" routeDefaults0 (some "\x7b\"use_docs\": true\x7d") 1000)
        "use_docs" = some (Json.bool true) :=
  ⟨rfl, rfl, rfl⟩

/-- C6 amended: boolean fields are overridden exactly when the JSON value
is an actual boolean (never a string `"true"`); unrecognized keys never
touch the output; but each recognized string field is written even when
absent: a missing key or JSON `null` stores `null` (overwriting the
default), a string stores its stripped value (empty → `null`), and only a
wrong-typed (non-string, non-null) value leaves the default in place. -/
theorem routeMerge_field_behavior (d obj : RDict) :
    (∀ k ∈ boolKeys, dictGet (routeMerge d obj) k =
      match pyGet obj k with
      | Json.bool b => some (Json.bool b)
      | _ => dictGet d k) ∧
    (∀ k ∈ strKeys, dictGet (routeMerge d obj) k =
      match pyGet obj k with
      | Json.str v =>
          some (if (listStrip v.data).isEmpty then Json.null
                else Json.str (String.mk (listStrip v.data)))
      | Json.null => some Json.null
      | _ => dictGet d k) ∧
    (∀ k, k ∉ boolKeys → k ∉ strKeys → dictGet (routeMerge d obj) k = dictGet d k) := by
  refine ⟨?_, ?_, ?_⟩
  · intro k hk
    simp only [boolKeys, List.mem_cons, List.not_mem_nil, or_false] at hk
    rcases hk with rfl | rfl | rfl <;>
      · simp only [routeMerge, strKeys, boolKeys, List.foldl]
        rw [strStep_get_ne _ _ _ _ (by decide), strStep_get_ne _ _ _ _ (by decide),
          strStep_get_ne _ _ _ _ (by decide), strStep_get_ne _ _ _ _ (by decide),
          strStep_get_ne _ _ _ _ (by decide)]
        first
        | rw [boolStep_get_ne _ _ _ _ (by decide), boolStep_get_ne _ _ _ _ (by decide),
            boolStep_get_self]
        | rw [boolStep_get_ne _ _ _ _ (by decide), boolStep_get_self,
            boolStep_get_ne _ _ _ _ (by decide)]
        | rw [boolStep_get_self, boolStep_get_ne _ _ _ _ (by decide),
            boolStep_get_ne _ _ _ _ (by decide)]
  · intro k hk
    simp only [strKeys, List.mem_cons, List.not_mem_nil, or_false] at hk
    rcases hk with rfl | rfl | rfl | rfl | rfl
    · simp only [routeMerge, strKeys, boolKeys, List.foldl]
      rw [strStep_get_ne _ _ _ _ (by decide), strStep_get_ne _ _ _ _ (by decide),
        strStep_get_ne _ _ _ _ (by decide), strStep_get_ne _ _ _ _ (by decide),
        strStep_get_self, boolStep_get_ne _ _ _ _ (by decide),
        boolStep_get_ne _ _ _ _ (by decide), boolStep_get_ne _ _ _ _ (by decide)]
    · simp only [routeMerge, strKeys, boolKeys, List.foldl]
      rw [strStep_get_ne _ _ _ _ (by decide), strStep_get_ne _ _ _ _ (by decide),
        strStep_get_ne _ _ _ _ (by decide), strStep_get_self,
        strStep_get_ne _ _ _ _ (by decide), boolStep_get_ne _ _ _ _ (by decide),
        boolStep_get_ne _ _ _ _ (by decide), boolStep_get_ne _ _ _ _ (by decide)]
    · simp only [routeMerge, strKeys, boolKeys, List.foldl]
      rw [strStep_get_ne _ _ _ _ (by decide), strStep_get_ne _ _ _ _ (by decide),
        strStep_get_self, strStep_get_ne _ _ _ _ (by decide),
        strStep_get_ne _ _ _ _ (by decide), boolStep_get_ne _ _ _ _ (by decide),
        boolStep_get_ne _ _ _ _ (by decide), boolStep_get_ne _ _ _ _ (by decide)]
    · simp only [routeMerge, strKeys, boolKeys, List.foldl]
      rw [strStep_get_ne _ _ _ _ (by decide), strStep_get_self,
        strStep_get_ne _ _ _ _ (by decide), strStep_get_ne _ _ _ _ (by decide),
        strStep_get_ne _ _ _ _ (by decide), boolStep_get_ne _ _ _ _ (by decide),
        boolStep_get_ne _ _ _ _ (by decide), boolStep_get_ne _ _ _ _ (by decide)]
    · simp only [routeMerge, strKeys, boolKeys, List.foldl]
      rw [strStep_get_self, strStep_get_ne _ _ _ _ (by decide),
        strStep_get_ne _ _ _ _ (by decide), strStep_get_ne _ _ _ _ (by decide),
        strStep_get_ne _ _ _ _ (by decide), boolStep_get_ne _ _ _ _ (by decide),
        boolStep_get_ne _ _ _ _ (by decide), boolStep_get_ne _ _ _ _ (by decide)]
  · intro k hb hs
    simp only [boolKeys, List.mem_cons, List.not_mem_nil, or_false, not_or] at hb
    simp only [strKeys, List.mem_cons, List.not_mem_nil, or_false, not_or] at hs
    obtain ⟨hb1, hb2, hb3⟩ := hb
    obtain ⟨hs1, hs2, hs3, hs4, hs5⟩ := hs
    simp only [routeMerge, strKeys, boolKeys, List.foldl]
    rw [strStep_get_ne _ _ _ _ (fun h => hs5 h.symm),
      strStep_get_ne _ _ _ _ (fun h => hs4 h.symm),
      strStep_get_ne _ _ _ _ (fun h => hs3 h.symm),
      strStep_get_ne _ _ _ _ (fun h => hs2 h.symm),
      strStep_get_ne _ _ _ _ (fun h => hs1 h.symm),
      boolStep_get_ne _ _ _ _ (fun h => hb3 h.symm),
      boolStep_get_ne _ _ _ _ (fun h => hb2 h.symm),
      boolStep_get_ne _ _ _ _ (fun h => hb1 h.symm)]

theorem routeMerge_field_behavior_witness :
    ("use_docs" ∈ boolKeys) ∧
      dictGet (routeMerge routeDefaults0 [("use_docs", Json.bool true)]) "use_docs" =
        some (Json.bool true) :=
  ⟨by decide,
    ((routeMerge_field_behavior routeDefaults0 [("use_docs", Json.bool true)]).1
      "use_docs" (by decide)).trans rfl⟩

/-! ## Frame property of `route_rag` (C10)

To talk about mutation of the caller's dict, Python object identity is made
explicit: a heap maps addresses to dicts, `dict(defaults)` allocates a
fresh address holding a value copy, and each `out[key] = v` statement is a
write to the freshly allocated address. -/

/-- A heap of Python dict objects: address → current value, plus the next
fresh address. -/
structure PyHeap where
  cells : List (Nat × RDict)
  next : Nat

/-- Read the dict object at an address. -/
def heapGet (h : List (Nat × RDict)) (a : Nat) : Option RDict :=
  match h with
  | [] => none
  | (a', d) :: rest => if a' = a then some d else heapGet rest a

/-- Mutate the dict object at an address in place. -/
def heapUpdate (h : List (Nat × RDict)) (a : Nat) (f : RDict → RDict) : List (Nat × RDict) :=
  match h with
  | [] => []
  | (a', d) :: rest => if a' = a then (a', f d) :: rest else (a', d) :: heapUpdate rest a f

/-- Allocate a fresh dict object (Python `dict(...)`). -/
def heapAlloc (st : PyHeap) (d : RDict) : Nat × PyHeap :=
  (st.next, ⟨(st.next, d) :: st.cells, st.next + 1⟩)

/-- Heap-level model of `route_rag`: every return path first copies the
defaults into a fresh dict (`out = dict(defaults)` /
`return dict(defaults)`); the merge path then writes only to that fresh
address. Returns the address of the returned dict and the final heap. -/
def route_rag_heap (query : String) (defaultsAddr : Nat) (llm : Option String) (maxSize : Nat)
    (st : PyHeap) : Nat × PyHeap :=
  let defaults := (heapGet st.cells defaultsAddr).getD []
  if (listStrip query.data).isEmpty then heapAlloc st defaults
  else
    match llm with
    | none => heapAlloc st defaults
    | some content =>
        match jsonObjFromText (pyStrip content) maxSize with
        | some (Json.obj kvs) =>
            let pr := heapAlloc st defaults
            let cells1 := boolKeys.foldl
              (fun h k => heapUpdate h pr.1 (fun o => boolStep kvs o k)) pr.2.cells
            let cells2 := strKeys.foldl
              (fun h k => heapUpdate h pr.1 (fun o => strStep kvs o k)) cells1
            (pr.1, ⟨cells2, pr.2.next⟩)
        | _ => heapAlloc st defaults

theorem heapGet_heapUpdate_ne (h : List (Nat × RDict)) (u a : Nat) (f : RDict → RDict)
    (hne : a ≠ u) : heapGet (heapUpdate h u f) a = heapGet h a := by
  induction h with
  | nil => rfl
  | cons cell rest ih =>
      obtain ⟨a', d⟩ := cell
      by_cases h0 : a' = u
      · subst h0
        simp [heapUpdate, heapGet, Ne.symm hne, ih]
      · simp only [heapUpdate, if_neg h0, heapGet]
        by_cases h1 : a' = a
        · simp [h1]
        · simp [h1, ih]

theorem heapGet_foldl_update_ne (ks : List String) (u a : Nat) (hne : a ≠ u)
    (step : String → RDict → RDict) :
    ∀ cells, heapGet (ks.foldl (fun h k => heapUpdate h u (fun o => step k o)) cells) a =
      heapGet cells a := by
  induction ks with
  | nil => intro cells; rfl
  | cons k ks ih =>
      intro cells
      rw [List.foldl_cons, ih, heapGet_heapUpdate_ne _ _ _ _ hne]

/-- C10: `route_rag` never mutates the caller's defaults dict — on every
return path the dict object at any pre-existing address (in particular the
defaults' address) is unchanged, and the returned dict is the freshly
allocated one. -/
theorem route_rag_heap_frame (q : String) (da : Nat) (llm : Option String) (ms : Nat)
    (st : PyHeap) (a : Nat) (ha : a ≠ st.next) :
    heapGet (route_rag_heap q da llm ms st).2.cells a = heapGet st.cells a ∧
      (route_rag_heap q da llm ms st).1 = st.next := by
  have halloc : ∀ d : RDict, heapGet (heapAlloc st d).2.cells a = heapGet st.cells a := by
    intro d
    simp [heapAlloc, heapGet, Ne.symm ha]
  by_cases hq : (listStrip q.data).isEmpty
  · exact ⟨by simp [route_rag_heap, hq, halloc], by simp [route_rag_heap, hq, heapAlloc]⟩
  · rcases llm with _ | c
    · exact ⟨by simp [route_rag_heap, hq, halloc], by simp [route_rag_heap, hq, heapAlloc]⟩
    · rcases hobj : jsonObjFromText (pyStrip c) ms with _ | v
      · exact ⟨by simp [route_rag_heap, hq, hobj, halloc],
          by simp [route_rag_heap, hq, hobj, heapAlloc]⟩
      · cases v with
        | obj kvs =>
            constructor
            · simp only [route_rag_heap, hq, Bool.false_eq_true, if_false, hobj, heapAlloc]
              rw [heapGet_foldl_update_ne _ _ _ ha, heapGet_foldl_update_ne _ _ _ ha]
              simp [heapGet, Ne.symm ha]
            · simp [route_rag_heap, hq, hobj, heapAlloc]
        | null => exact ⟨by simp [route_rag_heap, hq, hobj, halloc],
            by simp [route_rag_heap, hq, hobj, heapAlloc]⟩
        | bool b => exact ⟨by simp [route_rag_heap, hq, hobj, halloc],
            by simp [route_rag_heap, hq, hobj, heapAlloc]⟩
        | num n => exact ⟨by simp [route_rag_heap, hq, hobj, halloc],
            by simp [route_rag_heap, hq, hobj, heapAlloc]⟩
        | str s => exact ⟨by simp [route_rag_heap, hq, hobj, halloc],
            by simp [route_rag_heap, hq, hobj, heapAlloc]⟩
        | arr xs => exact ⟨by simp [route_rag_heap, hq, hobj, halloc],
            by simp [route_rag_heap, hq, hobj, heapAlloc]⟩

theorem route_rag_heap_frame_witness :
    ((0 : Nat) ≠ 1) ∧
      (heapGet (route_rag_heap "q" 0 (some "\x7b\"use_docs\": true\x7d") 1000
          ⟨[(0, routeDefaults0)], 1⟩).2.cells 0 = heapGet [(0, routeDefaults0)] 0 ∧
        (route_rag_heap "q" 0 (some "\x7b\"use_docs\": true\x7d") 1000
          ⟨[(0, routeDefaults0)], 1⟩).1 = 1) :=
  ⟨by decide,
    route_rag_heap_frame "q" 0 (some "\x7b\"use_docs\": true\x7d") 1000
      ⟨[(0, routeDefaults0)], 1⟩ 0 (by decide)⟩

/-! ## KiwixRetrievalProvider.retrieve (retrieval.py)

External collaborators (`kiwix.search`, `kiwix.fetch_page`, the embedding
service, `hashlib.sha256`, `ragstore.add_document`, `ragstore.retrieve`)
are oracle functions in `KiwixEnv`.  Real-number scores are modelled with
`ℚ`; per the embedding contract the embedder returns one vector per input
text, so it is an oracle `String → List ℚ` applied per text. -/

/-- Modelled from the spec: `ragstore.cosine` is not under `src/` (it is an
external collaborator of `retrieval.py`).  "Cosine similarity: dot product
of two vectors divided by the product of their magnitudes"; the §3
invariant makes a zero magnitude score 0 instead of dividing by zero.
Square roots of the squared magnitudes are taken with `Nat.sqrt` on
numerator and denominator, which is exact on the perfect-square magnitudes
used in this development. -/
def dotQ (a b : List ℚ) : ℚ :=
  (List.zipWith (fun x y => x * y) a b).sum

/-- Rational square root, exact for perfect squares. -/
def ratSqrt (x : ℚ) : ℚ :=
  (Nat.sqrt x.num.toNat : ℚ) / (Nat.sqrt x.den : ℚ)

/-- Modelled from the spec (see `dotQ`): cosine similarity. -/
def cosine (a b : List ℚ) : ℚ :=
  let den := ratSqrt (dotQ a a) * ratSqrt (dotQ b b)
  if den = 0 then 0 else dotQ a b / den

/-- One entry of the external Kiwix search results (a Python dict with
optional `title` / `path` / `url` keys). -/
structure SearchItem where
  title : Option String
  path : Option String
  url : Option String

/-- Result of `kiwix.fetch_page`: a dict with optional `url` / `text`. -/
structure KPage where
  url : Option String
  text : Option String

/-- One hit returned by the external `ragstore.retrieve`. -/
structure KHit where
  chunkId : Int
  title : Option String
  filename : Option String
  path : Option String
  text : Option String
  score : Option ℚ

/-- Model of `RetrievalResult` (retrieval.py).  The free-form `meta` dict
is omitted: no claim inspects it. -/
structure RResult where
  source_type : String
  ref_id : String
  chunk_id : Int
  title : Option String
  url : Option String
  domain : Option String
  score : ℚ
  text : String
deriving DecidableEq

/-- The external collaborators of `KiwixRetrievalProvider.retrieve`. -/
structure KiwixEnv where
  search : String → Int → List SearchItem
  fetchPage : String → Option KPage
  embedOne : String → List ℚ
  sha12 : String → Nat
  addDocument : String → String → String → Int
  ragRetrieve : String → Int → List Int → List KHit

/-- Python truthiness of an optional string (`None` and `""` are falsy). -/
def truthyS : Option String → Bool
  | none => false
  | some s => s ≠ ""

/-- Python `a or b` on two optional strings. -/
def pyOrOpt (a b : Option String) : Option String :=
  if truthyS a then a else b

/-- Python `a or dflt` yielding a plain string. -/
def pyOrS (a : Option String) (dflt : String) : String :=
  if truthyS a then a.getD "" else dflt

/-- `path = item.get("path") or item.get("url") or ""`. -/
def pathOf (item : SearchItem) : String :=
  pyOrS (pyOrOpt item.path item.url) ""

/-- Python `s.rstrip("/")`. -/
def pyRstripSlash (s : String) : String :=
  String.mk ((s.data.reverse.dropWhile (fun c => c = '/')).reverse)

/-- Python `s.replace(pat, rep)` (all non-overlapping occurrences, left to
right); fuel-indexed for structural recursion, with `fuel = length`
sufficient since a nonempty pattern consumes at least one character.  An
empty pattern is never used by the code under study. -/
def listReplaceAux : Nat → List Char → List Char → List Char → List Char
  | 0, cs, _, _ => cs
  | fuel + 1, cs, pat, rep =>
      match cs with
      | [] => []
      | c :: rest =>
          if cs.take pat.length = pat ∧ ¬ pat.isEmpty then
            rep ++ listReplaceAux fuel (cs.drop pat.length) pat rep
          else c :: listReplaceAux fuel rest pat rep

/-- Python `s.replace(pat, rep)`. -/
def pyReplace (s pat rep : String) : String :=
  String.mk (listReplaceAux s.data.length s.data pat.data rep.data)

/-- Python `items[:k]` (slice with a stop index, possibly negative). -/
def pySliceStop (xs : List α) (k : Int) : List α :=
  if 0 ≤ k then xs.take k.toNat else xs.take (xs.length - (-k).toNat)

/-- Stable descending insertion by score: a new element goes after all
already-placed elements with a score at least as large.  Any stable sort
yields the same list here, so this models Python's stable
`items.sort(key=lambda x: x.score, reverse=True)`. -/
def insertDesc (r : RResult) : List RResult → List RResult
  | [] => [r]
  | x :: xs => if r.score > x.score then r :: x :: xs else x :: insertDesc r xs

/-- Stable descending sort by score. -/
def sortByScoreDesc (l : List RResult) : List RResult :=
  l.foldl (fun acc r => insertDesc r acc) []

/-- The page-metadata dict built per successfully fetched page in
transient mode. -/
structure PageMeta where
  title : Option String
  path : Option String
  url : Option String
  domain : String
  text : String

/-- One iteration of the transient-mode fetch loop: a failed
`kiwix.fetch_page` yields `none` (the page is skipped), a successful one
yields the page-metadata dict. -/
def transientMeta (env : KiwixEnv) (domain : String) (item : SearchItem) : Option PageMeta :=
  (env.fetchPage (pathOf item)).map (fun page =>
    { title := pyOrOpt item.title item.path
      path := item.path
      url := page.url
      domain := domain
      text := pyOrS page.text "" })

/-- Model of `KiwixRetrievalProvider.retrieve` with `persist=False`
(transient mode): guard empty base URL / query / search results, clamp the
page count to `[1, 10]`, fetch the candidate pages (skipping failures),
bail out with `[]` when no page was fetched, embed query and page texts,
score by cosine similarity, build the results (`chunk_id` is the truncated
URL hash), sort by score descending and return `items[:top_k]` with the
caller's unclamped `top_k`. -/
def kiwixRetrieveTransient (baseUrlArg query : String) (topK pagesArg : Int)
    (env : KiwixEnv) : List RResult :=
  let baseUrl := pyRstripSlash baseUrlArg
  if baseUrl = "" then []
  else
    let q := pyStrip query
    if q = "" then []
    else
      let results := env.search q topK
      if results.isEmpty then []
      else
        let pages := (max 1 (min pagesArg 10)).toNat
        let domain := pyReplace (pyReplace baseUrl "http://" "") "https://" ""
        let pagesMeta := (results.take pages).filterMap (transientMeta env domain)
        if pagesMeta.isEmpty then []
        else
          let qvec := env.embedOne q
          let items := pagesMeta.map (fun meta =>
            let vec := env.embedOne meta.text
            let score := cosine qvec vec
            let url := pyOrS meta.url ""
            let chunkId := env.sha12 url
            { source_type := "kiwix"
              ref_id := "kiwix:" ++ toString chunkId
              chunk_id := (chunkId : Int)
              title := meta.title
              url := meta.url
              domain := some meta.domain
              score := score
              text := meta.text : RResult })
          pySliceStop (sortByScoreDesc items) topK

/-- One iteration of the persistent-mode ingest loop: skip pages whose
fetch failed or whose stripped text is empty; otherwise ingest the page as
a document and collect the new document id. -/
def persistIngest (env : KiwixEnv) (item : SearchItem) : Option Int :=
  match env.fetchPage (pathOf item) with
  | none => none
  | some page =>
      let text := pyStrip (pyOrS page.text "")
      if text = "" then none
      else
        let title := pyOrS (pyOrOpt item.title (some (pathOf item))) "kiwix"
        let url := pyOrS page.url ""
        some (env.addDocument ("kiwix:" ++ title) text
          (if url ≠ "" then url else pathOf item))

/-- Model of `KiwixRetrievalProvider.retrieve` with `persist=True`
(persistent mode): ingest the fetched pages as documents (skipping failed
fetches and empty texts), bail out with `[]` when nothing was ingested,
then run a normal `ragstore.retrieve` scoped to the new document ids and
map the hits to results. -/
def kiwixRetrievePersist (baseUrlArg query : String) (topK pagesArg : Int)
    (env : KiwixEnv) : List RResult :=
  let baseUrl := pyRstripSlash baseUrlArg
  if baseUrl = "" then []
  else
    let q := pyStrip query
    if q = "" then []
    else
      let results := env.search q topK
      if results.isEmpty then []
      else
        let pages := (max 1 (min pagesArg 10)).toNat
        let domain := pyReplace (pyReplace baseUrl "http://" "") "https://" ""
        let ingested := (results.take pages).filterMap (persistIngest env)
        if ingested.isEmpty then []
        else
          (env.ragRetrieve q topK ingested).map (fun h =>
            { source_type := "kiwix"
              ref_id := "kiwix:" ++ toString h.chunkId
              chunk_id := h.chunkId
              title := pyOrOpt h.title h.filename
              url := h.path
              domain := some domain
              score := h.score.getD 0
              text := pyOrS h.text "" : RResult })

theorem length_insertDesc (r : RResult) (l : List RResult) :
    (insertDesc r l).length = l.length + 1 := by
  induction l with
  | nil => rfl
  | cons x xs ih =>
      by_cases h : r.score > x.score
      · simp [insertDesc, h]
      · simp [insertDesc, h, ih]

theorem length_sortByScoreDesc (l : List RResult) : (sortByScoreDesc l).length = l.length := by
  suffices h : ∀ acc : List RResult,
      (l.foldl (fun acc r => insertDesc r acc) acc).length = acc.length + l.length by
    simpa using h []
  induction l with
  | nil => intro acc; simp
  | cons x xs ih =>
      intro acc
      simp only [List.foldl_cons, ih, length_insertDesc, List.length_cons]
      omega

theorem pySliceStop_length_le (xs : List α) (k : Int) (hk : 0 ≤ k) :
    ((pySliceStop xs k).length : Int) ≤ k := by
  unfold pySliceStop
  rw [if_pos hk]
  have h := List.length_take k.toNat xs
  have h2 : (pySliceStop xs k).length ≤ k.toNat := by
    simp [pySliceStop, hk, List.length_take]
  omega

/-- C7 amended: for every non-negative `k` and every environment, the
transient Kiwix provider returns at most `k` results (the final list is
`items[:top_k]`); scores are raw cosine similarities and may be negative,
and `top_k` is not clamped by the provider. -/
theorem kiwix_transient_at_most_k (env : KiwixEnv) (base q : String) (k p : Int)
    (hk : 0 ≤ k) :
    ((kiwixRetrieveTransient base q k p env).length : Int) ≤ k := by
  simp only [kiwixRetrieveTransient]
  by_cases hb : pyRstripSlash base = ""
  · simp [hb]; omega
  · rw [if_neg hb]
    by_cases hq : pyStrip q = ""
    · simp [hq]; omega
    · rw [if_neg hq]
      by_cases hres : (env.search (pyStrip q) k).isEmpty
      · simp [hres]; omega
      · rw [if_neg hres]
        by_cases hmeta : (((env.search (pyStrip q) k).take
            (max 1 (min p 10)).toNat).filterMap (transientMeta env
              (pyReplace (pyReplace (pyRstripSlash base) "http://" "") "https://" ""))).isEmpty
        · simp [hmeta]; omega
        · rw [if_neg hmeta]
          exact pySliceStop_length_le _ _ hk

/-- A concrete environment whose page embedding points opposite the query
embedding. -/
def kiwixEnvNeg : KiwixEnv where
  search := fun _ _ => [⟨none, some "p", none⟩]
  fetchPage := fun _ => some ⟨some "u", some "t"⟩
  embedOne := fun s => if s = "q" then [1] else [-1]
  sha12 := fun _ => 0
  addDocument := fun _ _ _ => 0
  ragRetrieve := fun _ _ _ => []

/-- C7 counterexample: in transient mode the score is a raw cosine
similarity, which is negative when the page embedding points away from the
query embedding (so `score >= 0` fails); and with a negative `top_k`
(which the Kiwix provider does not clamp) the returned list cannot satisfy
"at most k results". -/
theorem kiwix_transient_score_can_be_negative :
    ((kiwixRetrieveTransient "k" "q" 5 4 kiwixEnvNeg).map (fun r => r.score) = [-1]) ∧
    ¬ (((kiwixRetrieveTransient "k" "q" (-1) 4 kiwixEnvNeg).length : Int) ≤ -1) := by
  constructor
  · have h1 : (kiwixRetrieveTransient "k" "q" 5 4 kiwixEnvNeg).map (fun r => r.score) =
        [cosine [1] [-1]] := rfl
    have h2 : cosine [1] [-1] = (-1 : ℚ) := by
      norm_num [cosine, ratSqrt, dotQ]
    rw [h1, h2]
  · have h3 : (kiwixRetrieveTransient "k" "q" (-1) 4 kiwixEnvNeg).length = 0 := rfl
    rw [h3]
    decide

theorem kiwix_transient_at_most_k_witness :
    ((0 : Int) ≤ 5) ∧ ((kiwixRetrieveTransient "k" "q" 5 4 kiwixEnvNeg).length : Int) ≤ 5 :=
  ⟨by decide, kiwix_transient_at_most_k kiwixEnvNeg "k" "q" 5 4 (by decide)⟩

/-- An environment whose single page fetch succeeds but yields empty text. -/
def kiwixEnvEmptyText : KiwixEnv where
  search := fun _ _ => [⟨some "T", some "p", none⟩]
  fetchPage := fun _ => some ⟨some "u", some ""⟩
  embedOne := fun _ => [1]
  sha12 := fun _ => 7
  addDocument := fun _ _ _ => 0
  ragRetrieve := fun _ _ _ => []

/-- C8 counterexample: in transient mode a successfully fetched page whose
text is empty still produces a result — so "zero fetched pages yield usable
text" does not imply an empty result list in transient mode (persistent
mode does skip empty texts, see the amended theorem). -/
theorem kiwix_transient_keeps_empty_text_page :
    ((kiwixRetrieveTransient "k" "q" 5 4 kiwixEnvEmptyText).map (fun r => r.text) = [""]) ∧
    (kiwixRetrieveTransient "k" "q" 5 4 kiwixEnvEmptyText).length = 1 :=
  ⟨rfl, rfl⟩

/-- An environment with two search hits: the fetch of path `pa` fails, the
fetch of path `pb` succeeds. -/
def kiwixEnvMixed : KiwixEnv where
  search := fun _ _ => [⟨some "A", some "pa", none⟩, ⟨some "B", some "pb", none⟩]
  fetchPage := fun p => if p = "pb" then some ⟨some "ub", some "tb"⟩ else none
  embedOne := fun _ => [1]
  sha12 := fun _ => 9
  addDocument := fun _ _ _ => 0
  ragRetrieve := fun _ _ _ => []

/-- C8 amended: a failed page fetch is skipped without aborting in both
modes — if every fetch fails, transient mode returns `[]`; if every
fetched page has empty (stripped) text, persistent mode returns `[]`; and
in the concrete one-fail-one-success transient scenario the result list is
exactly the successful page's chunk.  (A successfully fetched page with
empty text still yields a transient result, per the counterexample.) -/
theorem kiwix_page_fetch_failures_skipped (env : KiwixEnv) (base q : String) (k p : Int) :
    ((∀ path, env.fetchPage path = none) →
      kiwixRetrieveTransient base q k p env = []) ∧
    ((∀ path page, env.fetchPage path = some page → pyStrip (pyOrS page.text "") = "") →
      kiwixRetrievePersist base q k p env = []) ∧
    kiwixRetrieveTransient "k" "q" 5 4 kiwixEnvMixed =
      [{ source_type := "kiwix", ref_id := "kiwix:9", chunk_id := 9, title := some "B",
         url := some "ub", domain := some "k", score := 1, text := "tb" }] := by
  refine ⟨?_, ?_, ?_⟩
  · intro h
    simp only [kiwixRetrieveTransient]
    by_cases hb : pyRstripSlash base = ""
    · simp [hb]
    · rw [if_neg hb]
      by_cases hq : pyStrip q = ""
      · simp [hq]
      · rw [if_neg hq]
        by_cases hres : (env.search (pyStrip q) k).isEmpty
        · simp [hres]
        · rw [if_neg hres]
          have hmeta : ((env.search (pyStrip q) k).take (max 1 (min p 10)).toNat).filterMap
              (transientMeta env
                (pyReplace (pyReplace (pyRstripSlash base) "http://" "") "https://" "")) = [] := by
            rw [List.filterMap_eq_nil_iff]
            intro a _
            simp [transientMeta, h (pathOf a)]
          simp [hmeta]
  · intro h
    simp only [kiwixRetrievePersist]
    by_cases hb : pyRstripSlash base = ""
    · simp [hb]
    · rw [if_neg hb]
      by_cases hq : pyStrip q = ""
      · simp [hq]
      · rw [if_neg hq]
        by_cases hres : (env.search (pyStrip q) k).isEmpty
        · simp [hres]
        · rw [if_neg hres]
          have hing : ((env.search (pyStrip q) k).take (max 1 (min p 10)).toNat).filterMap
              (persistIngest env) = [] := by
            rw [List.filterMap_eq_nil_iff]
            intro a _
            rcases hp : env.fetchPage (pathOf a) with _ | page
            · simp [persistIngest, hp]
            · simp [persistIngest, hp, h (pathOf a) page hp]
          simp [hing]
  · have h1 : kiwixRetrieveTransient "k" "q" 5 4 kiwixEnvMixed =
        [{ source_type := "kiwix", ref_id := "kiwix:9", chunk_id := 9, title := some "B",
           url := some "ub", domain := some "k", score := cosine [1] [1], text := "tb" }] := rfl
    have h2 : cosine [1] [1] = (1 : ℚ) := by
      norm_num [cosine, ratSqrt, dotQ]
    rw [h1, h2]

/-- An environment where every page fetch fails. -/
def kiwixEnvNoFetch : KiwixEnv where
  search := fun _ _ => [⟨some "T", some "p", none⟩]
  fetchPage := fun _ => none
  embedOne := fun _ => [1]
  sha12 := fun _ => 0
  addDocument := fun _ _ _ => 0
  ragRetrieve := fun _ _ _ => []

theorem kiwix_page_fetch_failures_skipped_witness :
    ((∀ path, kiwixEnvNoFetch.fetchPage path = none) ∧
      kiwixRetrieveTransient "k" "q" 3 4 kiwixEnvNoFetch = []) ∧
    ((∀ path page, kiwixEnvEmptyText.fetchPage path = some page →
        pyStrip (pyOrS page.text "") = "") ∧
      kiwixRetrievePersist "k" "q" 3 4 kiwixEnvEmptyText = []) :=
  ⟨⟨fun _ => rfl,
    (kiwix_page_fetch_failures_skipped kiwixEnvNoFetch "k" "q" 3 4).1 (fun _ => rfl)⟩,
   ⟨fun _ page hp => by cases hp; rfl,
    (kiwix_page_fetch_failures_skipped kiwixEnvEmptyText "k" "q" 3 4).2.1
      (fun _ page hp => by cases hp; rfl)⟩⟩

/-! ## Claims C4 and C5: the extractors against the spec's description -/

/-- C4 counterexample: the first syntactically balanced bracket span of
`"[1] noise [2]"` is `"[1]"`, which parses fine — so the claimed behavior
would return `[1]` — but `_extract_json_array` takes the substring from
the first `[` to the LAST `]` (`"[1] noise [2]"`), whose parse fails, and
returns nothing. -/
theorem extract_array_not_first_balanced_span :
    extractJsonArray "[1] noise [2]" = none ∧
    jsonLoads "[1]" = some (Json.arr [Json.num 1]) :=
  ⟨rfl, rfl⟩

/-- C4 amended: the object extractor does scan the first balanced
string-aware `\x7b...\x7d` span (starting at the first `\x7b`) and abandons
extraction when that span fails to parse, even if a later valid span
exists; the array extractor instead parses the single substring from the
first `[` through the last `]`, so prose between two arrays defeats it
while a single embedded array is extracted. -/
theorem json_extractors_behavior :
    jsonObjFromText "pre \x7b\"a\": [1, \x7b\"b\": 2\x7d]\x7d post" 1000 =
      some (Json.obj [("a", Json.arr [Json.num 1, Json.obj [("b", Json.num 2)]])]) ∧
    jsonObjFromText "\x7boops\x7d \x7b\"a\": 1\x7d" 1000 = none ∧
    extractJsonArray "noise [3, 1] trailing" = some [Json.num 3, Json.num 1] ∧
    extractJsonArray "[3, 1] noise [2]" = none :=
  ⟨rfl, rfl, rfl, rfl⟩

/-- C5: the object extractor parses
`'noise \x7b"a": 1, "b": "x\x7dy"\x7d trailing'` correctly (the `\x7d` inside the
string value is not treated as a delimiter), and returns nothing on the
malformed `'\x7b"a": \x7d'` for every size cap. -/
theorem json_obj_extractor_examples (ms : Nat)
    (h : ("noise \x7b\"a\": 1, \"b\": \"x\x7dy\"\x7d trailing").length ≤ ms) :
    jsonObjFromText "noise \x7b\"a\": 1, \"b\": \"x\x7dy\"\x7d trailing" ms =
      some (Json.obj [("a", Json.num 1), ("b", Json.str "x\x7dy")]) ∧
    ∀ ms' : Nat, jsonObjFromText "\x7b\"a\": \x7d" ms' = none := by
  constructor
  · have hguard : ¬ (("noise \x7b\"a\": 1, \"b\": \"x\x7dy\"\x7d trailing").data.isEmpty = true ∨
        ("noise \x7b\"a\": 1, \"b\": \"x\x7dy\"\x7d trailing").data.length > ms) := by
      rintro (hc | hc)
      · cases hc
      · have hlen : ("noise \x7b\"a\": 1, \"b\": \"x\x7dy\"\x7d trailing").data.length =
            ("noise \x7b\"a\": 1, \"b\": \"x\x7dy\"\x7d trailing").length := rfl
        omega
    simp only [jsonObjFromText]
    rw [if_neg hguard]
    rfl
  · intro ms'
    by_cases hms : ("\x7b\"a\": \x7d").data.length > ms'
    · simp only [jsonObjFromText]
      rw [if_pos (Or.inr hms)]
    · have hguard : ¬ (("\x7b\"a\": \x7d").data.isEmpty = true ∨
          ("\x7b\"a\": \x7d").data.length > ms') := by
        rintro (hc | hc)
        · cases hc
        · exact absurd hc hms
      simp only [jsonObjFromText]
      rw [if_neg hguard]
      rfl

theorem json_obj_extractor_examples_witness :
    (("noise \x7b\"a\": 1, \"b\": \"x\x7dy\"\x7d trailing").length ≤ 1000) ∧
      jsonObjFromText "noise \x7b\"a\": 1, \"b\": \"x\x7dy\"\x7d trailing" 1000 =
        some (Json.obj [("a", Json.num 1), ("b", Json.str "x\x7dy")]) :=
  ⟨by decide, (json_obj_extractor_examples 1000 (by decide)).1⟩

/-! ## VectorStore similarity search (C9) -/

/-- A stored chunk record (text + embedding + weight + grouping fields). -/
structure VChunk where
  chunk_id : Nat
  group : Option String
  source : Option String
  emb : List ℚ
  weight : ℚ
  text : String

/-- Ranked insertion: higher score first, ties broken by lower `chunk_id`,
stable for the remaining ties. -/
def insertRanked (x : VChunk × ℚ) : List (VChunk × ℚ) → List (VChunk × ℚ)
  | [] => [x]
  | y :: ys =>
      if x.2 > y.2 ∨ (x.2 = y.2 ∧ x.1.chunk_id < y.1.chunk_id) then x :: y :: ys
      else y :: insertRanked x ys

/-- Sort scored chunks by descending score, ties by lower `chunk_id`. -/
def rankChunks (l : List (VChunk × ℚ)) : List (VChunk × ℚ) :=
  l.foldl (fun acc x => insertRanked x acc) []

/-- Modelled from the spec: `contextharbor.stores.ragstore.retrieve` is not
under `src/` (only its regression test is).  Spec §4.1: given a query
embedding and a chunk set optionally pre-filtered by group/source, return
chunks ranked by cosine similarity weighted by the per-owner static
weight; an absent filter means "search everything"; ties broken by lower
`chunk_id`; at most `top_k` results with `top_k` clamped to `[1, 200]`. -/
def vectorRetrieve (chunks : List VChunk) (qvec : List ℚ)
    (groupFilter sourceFilter : Option String) (topK : Int) : List (VChunk × ℚ) :=
  let pool := chunks.filter (fun c =>
    (match groupFilter with
     | none => true
     | some g => c.group = some g) &&
    (match sourceFilter with
     | none => true
     | some s => c.source = some s))
  let scored := pool.map (fun c => (c, cosine qvec c.emb * c.weight))
  (rankChunks scored).take (max 1 (min topK 200)).toNat

/-- C9: an unscoped query (no group/source filter) over a store containing
a single chunk returns that chunk, for every query vector and every
`top_k` — the absence of a filter means "search everything", so the query
neither errors nor returns an empty list. -/
theorem vectorRetrieve_unscoped_singleton (c : VChunk) (qvec : List ℚ) (k : Int) :
    (vectorRetrieve [c] qvec none none k).map Prod.fst = [c] := by
  have hclamp : 1 ≤ (max 1 (min k 200)).toNat := by omega
  simp only [vectorRetrieve, List.filter, List.map, rankChunks, List.foldl, insertRanked]
  rcases hn : (max 1 (min k 200)).toNat with _ | n
  · omega
  · simp [List.take]
